import Mathlib

/-!
Verification development for the FastCacheMiddleware cache engine.

The definitions below are a shallow embedding of the Python sources:
  * `fast_cache_middleware/serializers.py`  (JSONSerializer.dumps / loads)
  * `fast_cache_middleware/storages.py`     (BaseStorage / InMemoryStorage)
  * `fast_cache_middleware/storages/redis_storage.py` (RedisStorage.get)
  * `fast_cache_middleware/controller.py`   (Controller.should_cache_response)

Modelling conventions:
  * Python `dict` / `OrderedDict` are association lists in insertion order
    (`Dict α`); lookup takes the first matching key, as in a dict where keys
    are unique.
  * `time.time()` values and TTLs are floats on which the code only performs
    `+`, `-` and order comparisons, so they are modelled by an arbitrary
    linearly ordered additive commutative group `T` (with a numeral `60` for
    the expiry-check interval).  Every theorem quantifies over `T`; concrete
    instances use `T = ℤ`.
  * Response bodies are modelled as UTF-8 text (`String`); `len(body)` is the
    UTF-8 byte size.  All inputs appearing in the theorems below have UTF-8
    bodies, so `bytes.decode("utf-8")`/`str.encode("utf-8")` are the identity
    on them.
  * Raised Python exceptions are `Except` errors; `None` results are `Option`.
-/

namespace FCM

/-- Association-list model of a Python `dict` / `OrderedDict`:
entries in insertion order, keys unique in any well-formed state. -/
abbrev Dict (α : Type) := List (String × α)

/-- `d[k]` / `d.get(k)`: the value at the first entry with key `k`. -/
def dget {α : Type} (d : Dict α) (k : String) : Option α :=
  (d.find? (fun kv => kv.1 == k)).map (·.2)

/-- `d.pop(k, None)`'s effect on the mapping: drop every entry with key `k`
(for a dict with unique keys this is the single entry). -/
def derase {α : Type} (d : Dict α) (k : String) : Dict α :=
  d.filter (fun kv => kv.1 != k)

/-- `d[k] = v`: update the entry in place if the key is present, otherwise
append a fresh entry at the end (Python dicts keep insertion order). -/
def dset {α : Type} (d : Dict α) (k : String) (v : α) : Dict α :=
  if (dget d k).isSome then
    d.map (fun kv => if kv.1 == k then (k, v) else kv)
  else
    d ++ [(k, v)]

/-- `list(d.keys())`. -/
def dkeys {α : Type} (d : Dict α) : List String :=
  d.map (·.1)

/-- Iterated `pop`: the effect of removing each key of `ks` in turn. -/
def eraseKeys {α : Type} (d : Dict α) : List String → Dict α
  | [] => d
  | k :: ks => eraseKeys (derase d k) ks

/-- A value stored in a `Metadata` mapping: a number (int/float, modelled in
the time group `T`), a string, or `None`. -/
inductive MetaVal (T : Type) where
  | num (q : T)
  | str (s : String)
  | null
deriving DecidableEq

/-- `Metadata: tp.Dict[str, tp.Any]` from `serializers.py`. -/
abbrev Metadata (T : Type) := Dict (MetaVal T)

/-- The fields of a `starlette.requests.Request` consumed by this code base:
method, URL path, query string and headers (header names lowercased, as
produced by the ASGI scope). -/
structure Request where
  method : String
  path : String
  queryString : String
  headers : Dict String
deriving DecidableEq

/-- The fields of a `starlette.responses.Response` consumed by this code base:
status code, headers (names lowercased by Starlette) and body. -/
structure Response where
  statusCode : ℤ
  headers : Dict String
  body : String
deriving DecidableEq

/-- `StoredResponse: tp.Tuple[Response, Request, Metadata]` from
`storages.py`. -/
abbrev StoredResponse (T : Type) := Response × Request × Metadata T

/-! ## String helpers (kernel-computable models of Python string operations) -/

/-- `b.startswith(a)` on character lists. -/
def charPre : List Char → List Char → Bool
  | [], _ => true
  | _ :: _, [] => false
  | a :: as, b :: bs => a == b && charPre as bs

/-- Substring occurrence on character lists. -/
def charSub : List Char → List Char → Bool
  | [], sub => sub.isEmpty
  | c :: rest, sub => charPre sub (c :: rest) || charSub rest sub

/-- Python `sub in s` on strings. -/
def pyContains (s sub : String) : Bool :=
  charSub s.data sub.data

/-- Python `s.lower()` (ASCII case folding suffices for header values). -/
def pyLower (s : String) : String :=
  String.mk (s.data.map Char.toLower)

/-- The anchored-at-start match of the compiled pattern `^p.*` (or the bare
`re.match` of a literal prefix `p`): the path starts with `p`. -/
def pathStartsWith (p s : String) : Bool :=
  charPre p.data s.data

/-! ## JSONSerializer (`serializers.py`)

`json.dumps` / `json.loads` are inverse on the payload dictionaries built by
`dumps`, so the JSON text is modelled by the payload structure itself. -/

/-- The `request_data` dictionary built by `JSONSerializer.dumps`. -/
structure PyReqData where
  method : String
  url : String
  headers : Dict String
deriving DecidableEq

/-- The `response_data` dictionary built by `JSONSerializer.dumps`. -/
structure PyRespData where
  statusCode : ℤ
  headers : Dict String
  content : Option String
deriving DecidableEq

/-- The full `payload` dictionary produced by `JSONSerializer.dumps`. -/
structure PyPayload (T : Type) where
  response : PyRespData
  request : PyReqData
  metadata : Metadata T

/-- `str(request.url)` for a scope without server info: the path, followed by
`?query` when the query string is nonempty. -/
def requestUrl (r : Request) : String :=
  if r.queryString = "" then r.path else r.path ++ "?" ++ r.queryString

/-- `urllib.parse.urlparse(url)` restricted to the `path?query` shape produced
by `requestUrl`: split at the first `?`. -/
def urlparse (u : String) : String × String :=
  match u.splitOn "?" with
  | [] => ("", "")
  | [p] => (p, "")
  | p :: rest => (p, String.intercalate "?" rest)

/-- `JSONSerializer.dumps` (serializers.py lines 29-48): build the payload
from the consumed fields.  `response.body` is falsy (empty) ⇒ `content` is
`None`. -/
def JSONSerializer.dumps {T : Type} (response : Response) (request : Request)
    (metadata : Metadata T) : PyPayload T :=
  { request := { method := request.method
                 url := requestUrl request
                 headers := request.headers }
    response := { statusCode := response.statusCode
                  headers := response.headers
                  content := if response.body = "" then none else some response.body }
    metadata := metadata }

/-- Python tuple unpacking `k, v = s` for a string `s`: succeeds with the two
characters exactly when `s` has length 2, otherwise raises `ValueError`. -/
def pyUnpackPair (s : String) : Except String (String × String) :=
  if s.length = 2 then
    Except.ok (s.take 1, s.drop 1)
  else
    Except.error "ValueError: not enough values to unpack"

/-- `[[k.encode(), v.encode()] for k, v in request_data["headers"]]`
(serializers.py line 80): iterating a dict yields its KEYS, so each key
string is itself unpacked into `k, v`. -/
def loadsHeaderList (headers : Dict String) : Except String (Dict String) :=
  (dkeys headers).mapM pyUnpackPair

/-- `JSONSerializer.loads` (serializers.py lines 50-89): rebuild the response
and the request from the payload. -/
def JSONSerializer.loads {T : Type} (p : PyPayload T) :
    Except String (Response × Request × Metadata T) := do
  let response : Response :=
    { statusCode := p.response.statusCode
      headers := p.response.headers
      body := (p.response.content).getD "" }
  let parsed := urlparse p.request.url
  let scopeHeaders ← loadsHeaderList p.request.headers
  let request : Request :=
    { method := p.request.method
      path := parsed.1
      queryString := parsed.2
      headers := scopeHeaders }
  return (response, request, p.metadata)

/-! ## InMemoryStorage (`storages.py`) -/

variable {T : Type}

/-- Python exceptions raised by the storage layer: `StorageError` (a
configuration error) and `TypeError` (adding a string TTL to a float). -/
inductive PyErr where
  | storageError (msg : String)
  | typeError
deriving DecidableEq

/-- The constants fixed by `InMemoryStorage.__init__` (storages.py lines
70-92), immutable after construction. -/
structure Cfg (T : Type) where
  maxSize : ℕ
  ttl : Option T
  cleanupBatchSize : ℕ
  cleanupThreshold : ℕ
  expiryCheckInterval : T
deriving DecidableEq

/-- The mutable state of an `InMemoryStorage`: the ordered record map, the
expiry-time index and the throttle timestamp of the expiry sweep. -/
structure InMemState (T : Type) where
  storage : Dict (StoredResponse T)
  expiryTimes : Dict T
  lastExpiryCheckTime : T

/-- `InMemoryStorage.__init__` (storages.py lines 70-92, with the
`BaseStorage.__init__` TTL check from lines 29-39 running first).
`max_size` is a Python int; after validation it is positive, so the state
keeps it as a natural number. -/
def InMemoryStorage.init [LinearOrder T] [Zero T] [OfNat T 60]
    (maxSize : ℤ) (ttl : Option T) : Except PyErr (Cfg T × InMemState T) :=
  if (ttl.map (fun t => decide (t ≤ 0))).getD false then
    Except.error (PyErr.storageError "TTL must be positive")
  else if maxSize ≤ 0 then
    Except.error (PyErr.storageError "Max size must be positive")
  else
    Except.ok
      ({ maxSize := maxSize.toNat
         ttl := ttl
         cleanupBatchSize := max 1 (maxSize.toNat / 10)
         cleanupThreshold := maxSize.toNat + max 1 (maxSize.toNat / 20)
         expiryCheckInterval := 60 },
       { storage := [], expiryTimes := [], lastExpiryCheckTime := 0 })

/-- `InMemoryStorage._pop_item` (storages.py lines 186-193): drop the key from
both the record map and the expiry index. -/
def popItem (σ : InMemState T) (key : String) : InMemState T :=
  { σ with expiryTimes := derase σ.expiryTimes key
           storage := derase σ.storage key }

/-- `InMemoryStorage._is_expired` (storages.py lines 195-200): `True` iff the
key has an expiry time strictly in the past. -/
def isExpired [LinearOrder T] (σ : InMemState T) (now : T) (key : String) : Bool :=
  match dget σ.expiryTimes key with
  | some t => decide (now > t)
  | none => false

/-- `InMemoryStorage._remove_expired_items` (storages.py lines 202-222): a
sweep of all expired keys, throttled to once per `expiry_check_interval`. -/
def removeExpiredItems [LinearOrder T] [Sub T] (cfg : Cfg T) (σ : InMemState T)
    (now : T) : InMemState T :=
  if now - σ.lastExpiryCheckTime < cfg.expiryCheckInterval then σ
  else
    let σ1 := { σ with lastExpiryCheckTime := now }
    let expiredKeys := (σ1.expiryTimes.filter (fun kv => decide (now > kv.2))).map (·.1)
    expiredKeys.foldl popItem σ1

/-- One `self._storage.popitem(last=False)` plus the
`self._expiry_times.pop(key, None)` that follows it (storages.py lines
234-236).  The empty case cannot be requested by `_cleanup_lru_items`, whose
batch count is strictly below the current size. -/
def popFirst (σ : InMemState T) : InMemState T :=
  match σ.storage with
  | [] => σ
  | (k, _) :: rest => { σ with storage := rest, expiryTimes := derase σ.expiryTimes k }

/-- The eviction loop of `_cleanup_lru_items`: `n` head pops. -/
def popFirstN (σ : InMemState T) : ℕ → InMemState T
  | 0 => σ
  | n + 1 => popFirstN (popFirst σ) n

/-- `InMemoryStorage._cleanup_lru_items` (storages.py lines 224-238): when the
size exceeds the cleanup threshold, evict
`min(cleanup_batch_size, size - max_size)` entries from the LRU head. -/
def cleanupLruItems (cfg : Cfg T) (σ : InMemState T) : InMemState T :=
  if σ.storage.length ≤ cfg.cleanupThreshold then σ
  else popFirstN σ (min cfg.cleanupBatchSize (σ.storage.length - cfg.maxSize))

/-- `metadata.get("ttl", self._ttl)` followed by its use in
`current_time + data_ttl` (storages.py lines 121-123): a numeric TTL is used,
a stored `None` disables the expiry entry, and a string TTL makes the
addition raise `TypeError`. -/
def dataTTL (m : Metadata T) (dflt : Option T) : Except PyErr (Option T) :=
  match dget m "ttl" with
  | some (MetaVal.num q) => Except.ok (some q)
  | some MetaVal.null => Except.ok none
  | some (MetaVal.str _) => Except.error PyErr.typeError
  | none => Except.ok dflt

/-- `InMemoryStorage.store` (storages.py lines 94-127). -/
def InMemoryStorage.store [LinearOrder T] [Sub T] [Add T] (cfg : Cfg T)
    (σ : InMemState T) (now : T) (key : String) (response : Response)
    (request : Request) (metadata : Metadata T) : Except PyErr (InMemState T) :=
  let metadata2 := dset metadata "write_time" (MetaVal.num now)
  let σ1 := if (dget σ.storage key).isSome then popItem σ key else σ
  let σ2 := { σ1 with storage := dset σ1.storage key (response, request, metadata2) }
  match dataTTL metadata2 cfg.ttl with
  | Except.error e => Except.error e
  | Except.ok none =>
      Except.ok (cleanupLruItems cfg (removeExpiredItems cfg σ2 now))
  | Except.ok (some t) =>
      let σ3 := { σ2 with expiryTimes := dset σ2.expiryTimes key (now + t) }
      Except.ok (cleanupLruItems cfg (removeExpiredItems cfg σ3 now))

/-- `OrderedDict.move_to_end(key)` (storages.py line 150). -/
def moveToEnd (σ : InMemState T) (key : String) : InMemState T :=
  match dget σ.storage key with
  | none => σ
  | some v => { σ with storage := derase σ.storage key ++ [(key, v)] }

/-- `InMemoryStorage.retrieve` (storages.py lines 129-152): `None` for an
unknown key; an expired key is popped and reported as `None`; otherwise the
key moves to the LRU tail and its record is returned. -/
def InMemoryStorage.retrieve [LinearOrder T] (σ : InMemState T) (now : T)
    (key : String) : Option (StoredResponse T) × InMemState T :=
  if (dget σ.storage key).isNone then (none, σ)
  else if isExpired σ now key then (none, popItem σ key)
  else
    let σ1 := moveToEnd σ key
    (dget σ1.storage key, σ1)

/-- `InMemoryStorage.remove` (storages.py lines 154-174): collect the keys of
the records whose request path matches the pattern, then pop each.  The
compiled `re.Pattern` is modelled by its anchored match predicate. -/
def InMemoryStorage.remove (σ : InMemState T) (pmatch : String → Bool) :
    InMemState T :=
  let keysToRemove :=
    (σ.storage.filter (fun kv => pmatch kv.2.2.1.path)).map (·.1)
  keysToRemove.foldl popItem σ

/-- One public call on an `InMemoryStorage`, with the `time.time()` value the
call observes. -/
inductive CacheOp (T : Type) where
  | store (now : T) (key : String) (response : Response) (request : Request)
      (metadata : Metadata T)
  | retrieve (now : T) (key : String)
  | remove (pmatch : String → Bool)

/-- The state transition of one call.  `retrieve` and `remove` are total;
`store` can only raise the `TypeError` of a non-numeric metadata TTL. -/
def stepOp [LinearOrder T] [Sub T] [Add T] (cfg : Cfg T) (σ : InMemState T) :
    CacheOp T → Except PyErr (InMemState T)
  | CacheOp.store now key response request metadata =>
      InMemoryStorage.store cfg σ now key response request metadata
  | CacheOp.retrieve now key => Except.ok (InMemoryStorage.retrieve σ now key).2
  | CacheOp.remove pmatch => Except.ok (InMemoryStorage.remove σ pmatch)

/-- Run a sequence of calls, stopping at the first raised exception. -/
def runOps [LinearOrder T] [Sub T] [Add T] (cfg : Cfg T) (σ : InMemState T) :
    List (CacheOp T) → Except PyErr (InMemState T)
  | [] => Except.ok σ
  | op :: ops =>
      match stepOp cfg σ op with
      | Except.error e => Except.error e
      | Except.ok σ1 => runOps cfg σ1 ops

/-! ## Controller.should_cache_response (`controller.py`) -/

/-- `headers.get(name, "")` with Starlette's case-insensitive lookup, on
headers whose names are already lowercased. -/
def headerGetD (hs : Dict String) (k : String) : String :=
  (dget hs k).getD ""

/-- `Controller.should_cache_response` (controller.py lines 128-155): reject
status ≥ 400, any `no-cache`/`no-store`/`private` substring of the lowercased
`Cache-Control` value, and a truthy body longer than 1 MiB. -/
def Controller.should_cache_response (response : Response) : Bool :=
  if response.statusCode ≥ 400 then false
  else
    let cacheControl := pyLower (headerGetD response.headers "cache-control")
    if pyContains cacheControl "no-cache" || pyContains cacheControl "no-store"
        || pyContains cacheControl "private" then false
    else if response.body ≠ "" ∧ response.body.utf8ByteSize > 1024 * 1024 then false
    else true

/-- Modelled from the spec: the default response status allow-list of §4.5,
"success and permanent-redirect codes only" (2xx plus 301 and 308). -/
def specAllowedStatus (s : ℤ) : Bool :=
  decide ((200 ≤ s ∧ s ≤ 299) ∨ s = 301 ∨ s = 308)

/-- Modelled from the spec: the response-cacheability predicate claimed in
§4.5/§8 — allow-listed status, no `no-cache`/`no-store`/`private` directive,
body at most 1 MiB. -/
def specShouldCacheResponse (response : Response) : Bool :=
  specAllowedStatus response.statusCode
    && !(pyContains (pyLower (headerGetD response.headers "cache-control")) "no-cache")
    && !(pyContains (pyLower (headerGetD response.headers "cache-control")) "no-store")
    && !(pyContains (pyLower (headerGetD response.headers "cache-control")) "private")
    && decide (response.body.utf8ByteSize ≤ 1024 * 1024)

/-- The amended response-cacheability predicate: as the claim, but with the
allow-list replaced by what the code enforces — every non-error status
(< 400) is accepted. -/
def amendedShouldCacheResponse (response : Response) : Bool :=
  decide (response.statusCode < 400)
    && !(pyContains (pyLower (headerGetD response.headers "cache-control")) "no-cache")
    && !(pyContains (pyLower (headerGetD response.headers "cache-control")) "no-store")
    && !(pyContains (pyLower (headerGetD response.headers "cache-control")) "private")
    && decide (response.body.utf8ByteSize ≤ 1024 * 1024)

/-! ## RedisStorage.get (`storages/redis_storage.py`) -/

/-- The exceptions `RedisStorage.get` raises on absence.  (They are imported
from `fast_cache_middleware.exceptions`, which in this tree only defines
`NotFoundError`; modelled here as the two names the module uses.) -/
inductive RedisErr where
  | ttlExpired (fullKey : String)
  | notFound (key : String)
deriving DecidableEq

/-- The key-value content of the Redis backend visible to one `get` call:
full key → serialized payload. -/
structure RedisState (T : Type) where
  data : Dict (PyPayload T)

/-- `RedisStorage._full_key` (redis_storage.py lines 116-117). -/
def redisFullKey (namespc : String) (key : String) : String :=
  namespc ++ ":" ++ key

/-- `RedisStorage.get` (redis_storage.py lines 74-88): raises
`TTLExpiredStorageError` when the full key does not exist, raises
`NotFoundStorageError` when the fetched value is `None`, and otherwise
deserializes it. -/
def RedisStorage.get (namespc : String) (σ : RedisState T) (key : String) :
    Except RedisErr (Except String (Response × Request × Metadata T)) :=
  let fullKey := redisFullKey namespc key
  if (dget σ.data fullKey).isSome = false then
    Except.error (RedisErr.ttlExpired fullKey)
  else
    match dget σ.data fullKey with
    | none => Except.error (RedisErr.notFound key)
    | some raw => Except.ok (JSONSerializer.loads raw)

/-! ## The metadata copy in `store` (storages.py lines 108-123)

To state that the caller's metadata dict is not mutated, the two lines
`metadata = metadata.copy()` / `metadata["write_time"] = current_time` are
modelled with explicit dict identities on a heap, mirroring Python's
reference semantics. -/

/-- A heap of `Metadata` dict objects: cell id → current dict value, plus the
next fresh id. -/
structure MetaHeap (T : Type) where
  cells : List (ℕ × Metadata T)
  next : ℕ

/-- Dereference a dict object. -/
def MetaHeap.read (h : MetaHeap T) (i : ℕ) : Option (Metadata T) :=
  (h.cells.find? (fun c => c.1 == i)).map (·.2)

/-- `d.copy()`: allocate a fresh dict object with the same entries. -/
def MetaHeap.copy (h : MetaHeap T) (i : ℕ) : MetaHeap T × ℕ :=
  ({ cells := h.cells ++ [(h.next, (h.read i).getD [])], next := h.next + 1 },
   h.next)

/-- `d[k] = v` on the dict object `i`. -/
def MetaHeap.setItem (h : MetaHeap T) (i : ℕ) (k : String) (v : MetaVal T) :
    MetaHeap T :=
  { h with cells := h.cells.map (fun c => if c.1 == i then (c.1, dset c.2 k v) else c) }

/-- Storages.py lines 111-112 as executed by `store` on the caller's metadata
object `mid`: `metadata = metadata.copy()` then
`metadata["write_time"] = current_time`.  Returns the new heap and the id the
local name `metadata` refers to afterwards. -/
def store_metadata_update (h : MetaHeap T) (mid : ℕ) (now : T) : MetaHeap T × ℕ :=
  let copied := MetaHeap.copy h mid
  (MetaHeap.setItem copied.1 copied.2 "write_time" (MetaVal.num now), copied.2)

/-! ## Concrete inputs used in the examples (over `T = ℤ`) -/

/-- A minimal GET request to `p` (the shape the storage tests use). -/
def genReq (p : String) : Request :=
  { method := "GET", path := p, queryString := "", headers := [] }

/-- A minimal 200 response. -/
def genResp : Response :=
  { statusCode := 200, headers := [], body := "test" }

/-- Run a call sequence against a freshly constructed `InMemoryStorage`
with `max_size = 2` (so `cleanup_batch_size = 1`, `cleanup_threshold = 3`). -/
def lruRun (ops : List (CacheOp ℤ)) : Except PyErr (InMemState ℤ) :=
  match InMemoryStorage.init 2 none with
  | Except.ok p => runOps p.1 p.2 ops
  | Except.error e => Except.error e

/-- Insert A, B, C. -/
def lruOpsABC : List (CacheOp ℤ) :=
  [CacheOp.store 0 "A" genResp (genReq "/a") [],
   CacheOp.store 0 "B" genResp (genReq "/b") [],
   CacheOp.store 0 "C" genResp (genReq "/c") []]

/-- Insert A, B, C; retrieve B; insert D. -/
def lruOpsABCD : List (CacheOp ℤ) :=
  lruOpsABC ++ [CacheOp.retrieve 0 "B", CacheOp.store 0 "D" genResp (genReq "/d") []]

/-- Insert A, B, C; retrieve B; insert D; insert E. -/
def lruOpsABCDE : List (CacheOp ℤ) :=
  lruOpsABCD ++ [CacheOp.store 0 "E" genResp (genReq "/e") []]

/-- The request of the serializer tests: headers `host` and `user-agent`. -/
def reqRoundTrip : Request :=
  { method := "GET", path := "/test", queryString := "",
    headers := [("host", "test.com"), ("user-agent", "pytest")] }

/-- The response of the serializer tests. -/
def respRoundTrip : Response :=
  { statusCode := 200, headers := [("x-test", "yes")], body := "hello world" }

/-- The metadata of the serializer tests. -/
def metaRoundTrip : Metadata ℤ :=
  [("meta", MetaVal.str "value"), ("ttl", MetaVal.num 123)]

/-- The configuration produced by `InMemoryStorage(max_size=1000)`. -/
def cfg1000 : Cfg ℤ :=
  { maxSize := 1000, ttl := none, cleanupBatchSize := 100,
    cleanupThreshold := 1050, expiryCheckInterval := 60 }

/-- The empty starting state. -/
def emptyState : InMemState ℤ :=
  { storage := [], expiryTimes := [], lastExpiryCheckTime := 0 }

/-- Metadata carrying `ttl = 60`, as in the spec scenario `store(k1, ttl=60)`. -/
def meta60 : Metadata ℤ := [("ttl", MetaVal.num 60)]

/-- The state after `store("k1", ttl=60)` at time 0 on a fresh store. -/
def c3state : InMemState ℤ :=
  (InMemoryStorage.store cfg1000 emptyState 0 "k1" genResp (genReq "/k") meta60
    ).toOption.getD emptyState

/-- First-store metadata of the overwrite example. -/
def metaOld : Metadata ℤ := [("old", MetaVal.str "x")]

/-- Second-store metadata of the overwrite example. -/
def metaNew : Metadata ℤ := [("new", MetaVal.str "y")]

/-- State after storing `metaOld` under `k` at time 0. -/
def c7state1 : InMemState ℤ :=
  (InMemoryStorage.store cfg1000 emptyState 0 "k" genResp (genReq "/k") metaOld
    ).toOption.getD emptyState

/-- State after overwriting `k` with `metaNew` at time 5. -/
def c7state2 : InMemState ℤ :=
  (InMemoryStorage.store cfg1000 c7state1 5 "k"
    { statusCode := 201, headers := [], body := "new" } (genReq "/k2") metaNew
    ).toOption.getD emptyState

/-- The three-record store of the invalidation example:
`/api/users`, `/api/posts` and `/admin`. -/
def c8state : InMemState ℤ :=
  { storage :=
      [("u", (genResp, genReq "/api/users", [])),
       ("p", (genResp, genReq "/api/posts", [])),
       ("a", (genResp, genReq "/admin", []))]
    expiryTimes := [("u", 9)]
    lastExpiryCheckTime := 0 }

/-- The configuration produced by `InMemoryStorage(max_size=2)`. -/
def cfg2 : Cfg ℤ :=
  { maxSize := 2, ttl := none, cleanupBatchSize := 1,
    cleanupThreshold := 3, expiryCheckInterval := 60 }

/-- A four-record state (above `cfg2`'s cleanup threshold of 3). -/
def over4state : InMemState ℤ :=
  { storage :=
      [("A", (genResp, genReq "/a", [])),
       ("B", (genResp, genReq "/b", [])),
       ("C", (genResp, genReq "/c", [])),
       ("D", (genResp, genReq "/d", []))]
    expiryTimes := [("A", 9), ("C", 7)]
    lastExpiryCheckTime := 0 }

/-- The final state of the C5 witness run. -/
def c5state : InMemState ℤ :=
  (lruRun lruOpsABCD).toOption.getD emptyState

/-- A one-cell metadata heap: object `0` holds `{"a": "v"}`. -/
def heap1 : MetaHeap ℤ :=
  { cells := [(0, [("a", MetaVal.str "v")])], next := 1 }

/-- A stored record with an expired entry for the absence examples. -/
def expiredState : InMemState ℤ :=
  { storage := [("k", (genResp, genReq "/a", []))]
    expiryTimes := [("k", 5)]
    lastExpiryCheckTime := 0 }

/-- A stored record with a live (unexpired) entry. -/
def liveState : InMemState ℤ :=
  { storage := [("k", (genResp, genReq "/a", []))]
    expiryTimes := [("k", 50)]
    lastExpiryCheckTime := 0 }

/-- A record whose path is under `/api/`, for the removal absence example. -/
def apiState : InMemState ℤ :=
  { storage := [("k", (genResp, genReq "/api/u", []))]
    expiryTimes := []
    lastExpiryCheckTime := 0 }

/-- A 302 (temporary redirect) response with a small body and no
`Cache-Control` header. -/
def resp302 : Response := { statusCode := 302, headers := [], body := "x" }

/-! ## Dictionary lemmas -/

section DictLemmas

variable {α : Type}

lemma dget_nil (k : String) : dget ([] : Dict α) k = none := rfl

lemma dget_eq_none_of_forall_ne {d : Dict α} {k : String}
    (h : ∀ e ∈ d, e.1 ≠ k) : dget d k = none := by
  unfold dget
  rw [List.find?_eq_none.mpr]
  · rfl
  · intro e he
    simpa using h e he

lemma forall_ne_of_dget_eq_none {d : Dict α} {k : String}
    (h : dget d k = none) : ∀ e ∈ d, e.1 ≠ k := by
  intro e he
  unfold dget at h
  rw [Option.map_eq_none'] at h
  have := List.find?_eq_none.mp h e he
  simpa using this

lemma dget_cons_of_eq {e : String × α} {rest : List (String × α)} {k : String}
    (h : e.1 = k) : dget (e :: rest) k = some e.2 := by
  unfold dget
  rw [List.find?_cons_of_pos _ (by simpa using h)]
  rfl

lemma dget_cons_of_ne {e : String × α} {rest : List (String × α)} {k : String}
    (h : e.1 ≠ k) : dget (e :: rest) k = dget rest k := by
  unfold dget
  rw [List.find?_cons_of_neg _ (by simpa using h)]

lemma mem_derase {d : Dict α} {k : String} {e : String × α}
    (h : e ∈ derase d k) : e ∈ d ∧ e.1 ≠ k := by
  unfold derase at h
  have := List.mem_filter.mp h
  refine ⟨this.1, by simpa using this.2⟩

lemma derase_sublist (d : Dict α) (k : String) : List.Sublist (derase d k) d :=
  List.filter_sublist d

lemma dget_derase_self (d : Dict α) (k : String) : dget (derase d k) k = none :=
  dget_eq_none_of_forall_ne (fun _e he => (mem_derase he).2)

lemma derase_cons_of_eq {e : String × α} {rest : List (String × α)} {k : String}
    (h : e.1 = k) : derase (e :: rest) k = derase rest k := by
  simp [derase, h]

lemma derase_cons_of_ne {e : String × α} {rest : List (String × α)} {k : String}
    (h : e.1 ≠ k) : derase (e :: rest) k = e :: derase rest k := by
  simp [derase, h]

lemma dget_derase_ne (d : Dict α) {k k2 : String} (h : k2 ≠ k) :
    dget (derase d k) k2 = dget d k2 := by
  induction d with
  | nil => rfl
  | cons e rest ih =>
      by_cases hk : e.1 = k
      · have hne : e.1 ≠ k2 := by
          rw [hk]
          exact fun q => h q.symm
        rw [derase_cons_of_eq hk, ih, dget_cons_of_ne hne]
      · by_cases hq : e.1 = k2
        · rw [derase_cons_of_ne hk, dget_cons_of_eq hq, dget_cons_of_eq hq]
        · rw [derase_cons_of_ne hk, dget_cons_of_ne hq, dget_cons_of_ne hq, ih]

lemma dget_append (d₁ d₂ : Dict α) (k : String) :
    dget (d₁ ++ d₂) k = (dget d₁ k).or (dget d₂ k) := by
  unfold dget
  rw [List.find?_append]
  cases List.find? (fun kv => kv.1 == k) d₁ <;> rfl

lemma dget_append_right {d₁ d₂ : Dict α} {k : String}
    (h : ∀ e ∈ d₁, e.1 ≠ k) : dget (d₁ ++ d₂) k = dget d₂ k := by
  rw [dget_append, dget_eq_none_of_forall_ne h, Option.none_or]

lemma dget_singleton_tail {d : Dict α} {k : String} {v : α}
    (h : ∀ e ∈ d, e.1 ≠ k) : dget (d ++ [(k, v)]) k = some v := by
  rw [dget_append_right h, dget_cons_of_eq rfl]

lemma dset_of_absent {d : Dict α} {k : String} (v : α) (h : dget d k = none) :
    dset d k v = d ++ [(k, v)] := by
  unfold dset
  rw [h]
  rfl

lemma dget_dset_self (d : Dict α) (k : String) (v : α) :
    dget (dset d k v) k = some v := by
  unfold dset
  by_cases h : (dget d k).isSome
  · rw [if_pos h]
    obtain ⟨w, hw⟩ := Option.isSome_iff_exists.mp h
    clear h
    induction d with
    | nil => simp [dget] at hw
    | cons e rest ih =>
        by_cases he : e.1 = k
        · simp only [List.map_cons]
          rw [show (if e.1 == k then (k, v) else e) = (k, v) by simp [he]]
          exact dget_cons_of_eq rfl
        · simp only [List.map_cons]
          rw [show (if e.1 == k then (k, v) else e) = e by simp [he]]
          rw [dget_cons_of_ne he]
          rw [dget_cons_of_ne he] at hw
          exact ih hw
  · rw [if_neg h]
    exact dget_singleton_tail
      (forall_ne_of_dget_eq_none (Option.not_isSome_iff_eq_none.mp h))

lemma dget_mapset_ne (d : Dict α) {k k2 : String} (v : α) (h : k2 ≠ k) :
    dget (d.map (fun kv => if kv.1 == k then (k, v) else kv)) k2 = dget d k2 := by
  induction d with
  | nil => rfl
  | cons e rest ih =>
      simp only [List.map_cons]
      by_cases he : e.1 = k
      · rw [show (if e.1 == k then (k, v) else e) = (k, v) by simp [he]]
        rw [dget_cons_of_ne (fun q => h q.symm)]
        have : e.1 ≠ k2 := by
          rw [he]
          exact fun q => h q.symm
        rw [dget_cons_of_ne this, ih]
      · rw [show (if e.1 == k then (k, v) else e) = e by simp [he]]
        by_cases hq : e.1 = k2
        · rw [dget_cons_of_eq hq, dget_cons_of_eq hq]
        · rw [dget_cons_of_ne hq, dget_cons_of_ne hq, ih]

lemma dget_dset_ne (d : Dict α) {k k2 : String} (v : α) (h : k2 ≠ k) :
    dget (dset d k v) k2 = dget d k2 := by
  unfold dset
  by_cases hs : (dget d k).isSome
  · rw [if_pos hs]
    exact dget_mapset_ne d v h
  · rw [if_neg hs, dget_append]
    have : dget [(k, v)] k2 = none := dget_eq_none_of_forall_ne (by
      intro e he
      have : e = (k, v) := by simpa using he
      rw [this]
      intro q
      exact h q.symm)
    rw [this, Option.or_none]

lemma mem_dset {d : Dict α} {k : String} {v : α} {e : String × α}
    (h : e ∈ dset d k v) : e ∈ d ∨ e = (k, v) := by
  unfold dset at h
  by_cases hs : (dget d k).isSome
  · rw [if_pos hs] at h
    obtain ⟨a, ha, hae⟩ := List.mem_map.mp h
    by_cases hk : a.1 = k
    · right
      rw [← hae]
      simp [hk]
    · left
      rw [← hae]
      simpa [hk] using ha
  · rw [if_neg hs] at h
    rcases List.mem_append.mp h with h1 | h1
    · exact Or.inl h1
    · right
      simpa using h1

lemma dset_key_val {d : Dict α} {k : String} {v : α} {e : String × α}
    (h : e ∈ dset d k v) (hk : e.1 = k) : e.2 = v := by
  unfold dset at h
  by_cases hs : (dget d k).isSome
  · rw [if_pos hs] at h
    obtain ⟨a, ha, hae⟩ := List.mem_map.mp h
    by_cases hak : a.1 = k
    · rw [show (if a.1 == k then (k, v) else a) = (k, v) by simp [hak]] at hae
      rw [← hae]
    · rw [show (if a.1 == k then (k, v) else a) = a by simp [hak]] at hae
      rw [← hae] at hk
      exact absurd hk hak
  · rw [if_neg hs] at h
    rcases List.mem_append.mp h with h1 | h1
    · have := forall_ne_of_dget_eq_none (Option.not_isSome_iff_eq_none.mp hs) e h1
      exact absurd hk this
    · have : e = (k, v) := by simpa using h1
      rw [this]

lemma dset_length_le (d : Dict α) (k : String) (v : α) :
    (dset d k v).length ≤ d.length + 1 := by
  unfold dset
  by_cases hs : (dget d k).isSome
  · rw [if_pos hs, List.length_map]
    exact Nat.le_succ _
  · rw [if_neg hs, List.length_append]
    simp

lemma eraseKeys_nil (d : Dict α) : eraseKeys d [] = d := rfl

lemma eraseKeys_cons (d : Dict α) (k : String) (ks : List String) :
    eraseKeys d (k :: ks) = eraseKeys (derase d k) ks := rfl

lemma eraseKeys_sublist (d : Dict α) (ks : List String) :
    List.Sublist (eraseKeys d ks) d := by
  induction ks generalizing d with
  | nil => exact List.Sublist.refl d
  | cons k ks ih =>
      rw [eraseKeys_cons]
      exact (ih (derase d k)).trans (derase_sublist d k)

lemma eraseKeys_length_le (d : Dict α) (ks : List String) :
    (eraseKeys d ks).length ≤ d.length :=
  (eraseKeys_sublist d ks).length_le

lemma dget_eraseKeys_not_mem (d : Dict α) {k : String} {ks : List String}
    (h : k ∉ ks) : dget (eraseKeys d ks) k = dget d k := by
  induction ks generalizing d with
  | nil => rfl
  | cons k2 ks ih =>
      rw [eraseKeys_cons, ih _ (fun q => h (List.mem_cons_of_mem _ q)),
        dget_derase_ne d (fun q => h (by rw [q]; exact List.mem_cons_self _ _))]

lemma dget_eraseKeys_mem (d : Dict α) {k : String} {ks : List String}
    (h : k ∈ ks) : dget (eraseKeys d ks) k = none := by
  induction ks generalizing d with
  | nil => cases h
  | cons k2 ks ih =>
      rw [eraseKeys_cons]
      by_cases hk : k ∈ ks
      · exact ih _ hk
      · have : k = k2 := by
          rcases List.mem_cons.mp h with h1 | h1
          · exact h1
          · exact absurd h1 hk
        rw [dget_eraseKeys_not_mem _ hk, this, dget_derase_self]

lemma derase_append (d₁ d₂ : Dict α) (k : String) :
    derase (d₁ ++ d₂) k = derase d₁ k ++ derase d₂ k :=
  List.filter_append _ _

lemma derase_singleton_ne {k k2 : String} {v : α} (h : k2 ≠ k) :
    derase [(k2, v)] k = [(k2, v)] := by
  simp [derase, h]

lemma eraseKeys_append_tail {d : Dict α} {k : String} {v : α} {ks : List String}
    (h : k ∉ ks) :
    eraseKeys (d ++ [(k, v)]) ks = eraseKeys d ks ++ [(k, v)] := by
  induction ks generalizing d with
  | nil => rfl
  | cons k2 ks ih =>
      rw [eraseKeys_cons, eraseKeys_cons, derase_append,
        derase_singleton_ne (fun q => h (by rw [q]; exact List.mem_cons_self _ _)),
        ih (fun q => h (List.mem_cons_of_mem _ q))]

end DictLemmas

/-! ## Lemmas on the in-memory storage operations -/

section StorageLemmas

variable {T : Type}

lemma popItem_foldl_storage (ks : List String) (σ : InMemState T) :
    (ks.foldl popItem σ).storage = eraseKeys σ.storage ks := by
  induction ks generalizing σ with
  | nil => rfl
  | cons k ks ih => exact ih (popItem σ k)

lemma popItem_foldl_expiry (ks : List String) (σ : InMemState T) :
    (ks.foldl popItem σ).expiryTimes = eraseKeys σ.expiryTimes ks := by
  induction ks generalizing σ with
  | nil => rfl
  | cons k ks ih => exact ih (popItem σ k)

lemma popItem_foldl_last (ks : List String) (σ : InMemState T) :
    (ks.foldl popItem σ).lastExpiryCheckTime = σ.lastExpiryCheckTime := by
  induction ks generalizing σ with
  | nil => rfl
  | cons k ks ih => exact ih (popItem σ k)

lemma popFirstN_storage (n : ℕ) (σ : InMemState T) :
    (popFirstN σ n).storage = σ.storage.drop n := by
  induction n generalizing σ with
  | zero => simp [popFirstN]
  | succ n ih =>
      show (popFirstN (popFirst σ) n).storage = _
      rw [ih]
      cases h : σ.storage with
      | nil => simp [popFirst, h]
      | cons e rest => simp [popFirst, h]

lemma popFirstN_expiry (n : ℕ) (σ : InMemState T) :
    (popFirstN σ n).expiryTimes =
      eraseKeys σ.expiryTimes ((σ.storage.take n).map (·.1)) := by
  induction n generalizing σ with
  | zero => simp [popFirstN, eraseKeys_nil]
  | succ n ih =>
      show (popFirstN (popFirst σ) n).expiryTimes = _
      rw [ih]
      cases h : σ.storage with
      | nil => simp [popFirst, h, eraseKeys_nil]
      | cons e rest =>
          cases e with
          | mk k v => simp [popFirst, h, eraseKeys_cons]

lemma popFirstN_last (n : ℕ) (σ : InMemState T) :
    (popFirstN σ n).lastExpiryCheckTime = σ.lastExpiryCheckTime := by
  induction n generalizing σ with
  | zero => rfl
  | succ n ih =>
      show (popFirstN (popFirst σ) n).lastExpiryCheckTime = _
      rw [ih]
      cases h : σ.storage with
      | nil => simp [popFirst, h]
      | cons e rest =>
          cases e with
          | mk k v => simp [popFirst, h]

lemma popFirstN_length (n : ℕ) (σ : InMemState T) :
    (popFirstN σ n).storage.length = σ.storage.length - n := by
  rw [popFirstN_storage, List.length_drop]

lemma removeExpired_length_le [LinearOrder T] [Sub T] (cfg : Cfg T)
    (σ : InMemState T) (now : T) :
    (removeExpiredItems cfg σ now).storage.length ≤ σ.storage.length := by
  unfold removeExpiredItems
  by_cases h : now - σ.lastExpiryCheckTime < cfg.expiryCheckInterval
  · rw [if_pos h]
  · rw [if_neg h]
    rw [popItem_foldl_storage]
    exact eraseKeys_length_le _ _

lemma cleanup_length_le_threshold (cfg : Cfg T) (σ : InMemState T)
    (hbatch : 1 ≤ cfg.cleanupBatchSize)
    (hthr : cfg.maxSize + 1 ≤ cfg.cleanupThreshold)
    (h : σ.storage.length ≤ cfg.cleanupThreshold + 1) :
    (cleanupLruItems cfg σ).storage.length ≤ cfg.cleanupThreshold := by
  unfold cleanupLruItems
  by_cases hle : σ.storage.length ≤ cfg.cleanupThreshold
  · rw [if_pos hle]
    exact hle
  · rw [if_neg hle]
    rw [popFirstN_length]
    push_neg at hle
    omega

/-- Tail survival through the throttled expiry sweep: a key whose expiry
entries are all unexpired keeps its record (at the LRU tail) and its expiry
entry. -/
lemma removeExpired_safe [LinearOrder T] [Sub T] (cfg : Cfg T)
    {σ : InMemState T} {now : T} {k : String} {rec : StoredResponse T}
    {A : Dict (StoredResponse T)}
    (hA : σ.storage = A ++ [(k, rec)]) (hfree : ∀ e ∈ A, e.1 ≠ k)
    (hkeep : ∀ q ∈ σ.expiryTimes, q.1 = k → ¬ (now > q.2)) :
    ∃ B, (removeExpiredItems cfg σ now).storage = B ++ [(k, rec)] ∧
      (∀ e ∈ B, e.1 ≠ k) ∧ B.length ≤ A.length ∧
      dget (removeExpiredItems cfg σ now).expiryTimes k = dget σ.expiryTimes k := by
  unfold removeExpiredItems
  by_cases h : now - σ.lastExpiryCheckTime < cfg.expiryCheckInterval
  · rw [if_pos h]
    exact ⟨A, hA, hfree, le_refl _, rfl⟩
  · rw [if_neg h]
    simp only [popItem_foldl_storage, popItem_foldl_expiry]
    set E := ((σ.expiryTimes.filter (fun kv => decide (now > kv.2))).map (·.1))
      with hE
    have hkE : k ∉ E := by
      intro hmem
      obtain ⟨q, hq, hqk⟩ := List.mem_map.mp hmem
      have hq2 := List.mem_filter.mp hq
      exact hkeep q hq2.1 hqk (by simpa using hq2.2)
    refine ⟨eraseKeys A E, ?_, ?_, eraseKeys_length_le _ _, ?_⟩
    · show eraseKeys σ.storage E = _
      rw [hA, eraseKeys_append_tail hkE]
    · intro e he
      exact hfree e ((eraseKeys_sublist A E).subset he)
    · exact dget_eraseKeys_not_mem _ hkE

/-- Tail survival through the LRU cleanup: the batch is strictly smaller than
the size (when `max_size ≥ 1`), so the just-inserted tail record survives and
its expiry entry is untouched. -/
lemma cleanup_safe (cfg : Cfg T) {σ : InMemState T} {k : String}
    {rec : StoredResponse T} {A : Dict (StoredResponse T)}
    (hA : σ.storage = A ++ [(k, rec)]) (hfree : ∀ e ∈ A, e.1 ≠ k)
    (hmax : 1 ≤ cfg.maxSize) :
    ∃ B, (cleanupLruItems cfg σ).storage = B ++ [(k, rec)] ∧
      (∀ e ∈ B, e.1 ≠ k) ∧
      dget (cleanupLruItems cfg σ).expiryTimes k = dget σ.expiryTimes k := by
  unfold cleanupLruItems
  by_cases hle : σ.storage.length ≤ cfg.cleanupThreshold
  · rw [if_pos hle]
    exact ⟨A, hA, hfree, rfl⟩
  · rw [if_neg hle]
    set n := min cfg.cleanupBatchSize (σ.storage.length - cfg.maxSize) with hn
    have hlen : σ.storage.length = A.length + 1 := by
      rw [hA, List.length_append, List.length_singleton]
    have hnA : n ≤ A.length := by
      have : n ≤ σ.storage.length - cfg.maxSize := min_le_right _ _
      omega
    have htake : k ∉ (σ.storage.take n).map (·.1) := by
      rw [hA, List.take_append_of_le_length hnA]
      intro hmem
      obtain ⟨e, he, hek⟩ := List.mem_map.mp hmem
      exact hfree e (List.take_subset n A he) hek
    refine ⟨A.drop n, ?_, ?_, ?_⟩
    · rw [popFirstN_storage, hA, List.drop_append_of_le_length hnA]
    · intro e he
      exact hfree e (List.drop_subset n A he)
    · rw [popFirstN_expiry]
      exact dget_eraseKeys_not_mem _ htake

/-- Anatomy of a successful `store`: the new record sits alone under its key
at the LRU tail, and the expiry index holds `now + ttl` exactly when an
effective TTL was found. -/
lemma store_ok_anatomy [LinearOrderedAddCommGroup T] (cfg : Cfg T)
    {σ σ' : InMemState T} {now : T} {key : String} {resp : Response}
    {req : Request} {m : Metadata T} {o : Option T}
    (hmax : 1 ≤ cfg.maxSize)
    (hT : dataTTL (dset m "write_time" (MetaVal.num now)) cfg.ttl = Except.ok o)
    (ho : ∀ t ∈ o, 0 ≤ t)
    (hstale : o = none →
      ((dget σ.storage key).isSome ∨ dget σ.expiryTimes key = none))
    (h : InMemoryStorage.store cfg σ now key resp req m = Except.ok σ') :
    ∃ B, σ'.storage =
        B ++ [(key, (resp, req, dset m "write_time" (MetaVal.num now)))] ∧
      (∀ e ∈ B, e.1 ≠ key) ∧
      dget σ'.expiryTimes key = o.map (fun t => now + t) := by
  unfold InMemoryStorage.store at h
  dsimp only at h
  rw [hT] at h
  set m2 := dset m "write_time" (MetaVal.num now) with hm2
  set σB := if (dget σ.storage key).isSome then popItem σ key else σ with hσB
  have hfreeB : ∀ e ∈ σB.storage, e.1 ≠ key := by
    rw [hσB]
    by_cases hs : (dget σ.storage key).isSome
    · rw [if_pos hs]
      exact fun e he => (mem_derase he).2
    · rw [if_neg hs]
      exact forall_ne_of_dget_eq_none (Option.not_isSome_iff_eq_none.mp hs)
  have hsetB : dset σB.storage key (resp, req, m2) =
      σB.storage ++ [(key, (resp, req, m2))] :=
    dset_of_absent _ (dget_eq_none_of_forall_ne hfreeB)
  cases o with
  | some t =>
      have ht : (0 : T) ≤ t := ho t rfl
      simp only [Except.ok.injEq] at h
      set σ3 : InMemState T :=
        { storage := dset σB.storage key (resp, req, m2)
          expiryTimes := dset σB.expiryTimes key (now + t)
          lastExpiryCheckTime := σB.lastExpiryCheckTime } with hσ3
      have h3 : σ' = cleanupLruItems cfg (removeExpiredItems cfg σ3 now) := h.symm
      have hkeep : ∀ q ∈ σ3.expiryTimes, q.1 = key → ¬ (now > q.2) := by
        intro q hq hqk
        have := dset_key_val hq hqk
        rw [this]
        exact not_lt.mpr (le_add_of_nonneg_right ht)
      have hA3 : σ3.storage = σB.storage ++ [(key, (resp, req, m2))] := hsetB
      obtain ⟨B1, hB1, hB1free, _, hB1exp⟩ :=
        removeExpired_safe cfg hA3 hfreeB hkeep
      obtain ⟨B2, hB2, hB2free, hB2exp⟩ :=
        cleanup_safe cfg hB1 hB1free hmax
      refine ⟨B2, ?_, hB2free, ?_⟩
      · rw [h3]
        exact hB2
      · rw [h3, hB2exp, hB1exp]
        show dget (dset σB.expiryTimes key (now + t)) key = _
        rw [dget_dset_self]
        rfl
  | none =>
      simp only [Except.ok.injEq] at h
      set σ3 : InMemState T :=
        { storage := dset σB.storage key (resp, req, m2)
          expiryTimes := σB.expiryTimes
          lastExpiryCheckTime := σB.lastExpiryCheckTime } with hσ3
      have h3 : σ' = cleanupLruItems cfg (removeExpiredItems cfg σ3 now) := h.symm
      have hexpB : dget σB.expiryTimes key = none := by
        rw [hσB]
        by_cases hs : (dget σ.storage key).isSome
        · rw [if_pos hs]
          exact dget_derase_self _ _
        · rw [if_neg hs]
          rcases hstale rfl with h1 | h1
          · exact absurd h1 hs
          · exact h1
      have hkeep : ∀ q ∈ σ3.expiryTimes, q.1 = key → ¬ (now > q.2) := by
        intro q hq hqk
        exact absurd hqk (forall_ne_of_dget_eq_none hexpB q hq)
      have hA3 : σ3.storage = σB.storage ++ [(key, (resp, req, m2))] := hsetB
      obtain ⟨B1, hB1, hB1free, _, hB1exp⟩ :=
        removeExpired_safe cfg hA3 hfreeB hkeep
      obtain ⟨B2, hB2, hB2free, hB2exp⟩ :=
        cleanup_safe cfg hB1 hB1free hmax
      refine ⟨B2, ?_, hB2free, ?_⟩
      · rw [h3]
        exact hB2
      · rw [h3, hB2exp, hB1exp]
        exact hexpB

lemma retrieve_of_absent [LinearOrder T] {σ : InMemState T} {now : T}
    {k : String} (h : dget σ.storage k = none) :
    InMemoryStorage.retrieve σ now k = (none, σ) := by
  unfold InMemoryStorage.retrieve
  rw [if_pos (by rw [h]; rfl)]

lemma retrieve_of_expired [LinearOrder T] {σ : InMemState T} {now : T}
    {k : String} (hp : (dget σ.storage k).isSome)
    (h : isExpired σ now k = true) :
    InMemoryStorage.retrieve σ now k = (none, popItem σ k) := by
  unfold InMemoryStorage.retrieve
  rw [if_neg (by rw [Option.isNone_iff_eq_none]; exact Option.isSome_iff_ne_none.mp hp),
    if_pos h]

lemma retrieve_of_live [LinearOrder T] {σ : InMemState T} {now : T}
    {k : String} {rec : StoredResponse T} (hsome : dget σ.storage k = some rec)
    (h : isExpired σ now k = false) :
    InMemoryStorage.retrieve σ now k = (some rec, moveToEnd σ k) := by
  unfold InMemoryStorage.retrieve
  rw [if_neg (by rw [hsome]; simp), if_neg (by rw [h]; simp)]
  have hmv : (moveToEnd σ k).storage = derase σ.storage k ++ [(k, rec)] := by
    unfold moveToEnd
    rw [hsome]
  show (dget (moveToEnd σ k).storage k, moveToEnd σ k) = _
  rw [hmv, dget_singleton_tail (fun e he => (mem_derase he).2)]

lemma dget_of_tail_form {B : Dict α} {k : String} {v : α}
    (hfree : ∀ e ∈ B, e.1 ≠ k) : dget (B ++ [(k, v)]) k = some v :=
  dget_singleton_tail hfree

end StorageLemmas

/-! ## Claim theorems -/

section ClaimTheorems

variable {T : Type}

/-- **C3** — TTL correctness of the in-memory store: storing a record at time
`0` whose effective TTL is `t > 0` makes any retrieve strictly before `t`
return the stored record, and any retrieve strictly after `t` return absence
and drop the entry.  (`max_size ≥ 1` holds for every constructed store; the
`o = none` side condition of `store_ok_anatomy` is vacuous here.) -/
theorem ttl_expiry_correct [LinearOrderedAddCommGroup T] (cfg : Cfg T)
    (σ0 σ1 : InMemState T) (key : String) (resp : Response) (req : Request)
    (m : Metadata T) (t : T)
    (hmax : 1 ≤ cfg.maxSize)
    (hT : dataTTL (dset m "write_time" (MetaVal.num 0)) cfg.ttl =
      Except.ok (some t))
    (ht : 0 < t)
    (hstore : InMemoryStorage.store cfg σ0 0 key resp req m = Except.ok σ1) :
    (∀ now : T, now < t →
      (InMemoryStorage.retrieve σ1 now key).1 =
        some (resp, req, dset m "write_time" (MetaVal.num 0))) ∧
    (∀ now : T, t < now →
      (InMemoryStorage.retrieve σ1 now key).1 = none ∧
      dget (InMemoryStorage.retrieve σ1 now key).2.storage key = none) := by
  obtain ⟨B, hB, hBfree, hBexp⟩ :=
    store_ok_anatomy cfg hmax hT
      (by
        intro s hs
        rw [Option.mem_def, Option.some.injEq] at hs
        rw [← hs]
        exact ht.le)
      (by rintro ⟨⟩) hstore
  have hget : dget σ1.storage key =
      some (resp, req, dset m "write_time" (MetaVal.num 0)) := by
    rw [hB]
    exact dget_of_tail_form hBfree
  have hexp : dget σ1.expiryTimes key = some t := by
    rw [hBexp]
    simp [zero_add]
  constructor
  · intro now hnow
    have hnotexp : isExpired σ1 now key = false := by
      unfold isExpired
      rw [hexp]
      simpa using not_lt.mpr hnow.le
    rw [retrieve_of_live hget hnotexp]
  · intro now hnow
    have hisexp : isExpired σ1 now key = true := by
      unfold isExpired
      rw [hexp]
      simpa using hnow
    rw [retrieve_of_expired (by rw [hget]; rfl) hisexp]
    exact ⟨rfl, dget_derase_self _ _⟩

/-- **C7** — Overwrite semantics: after two successive `store` calls under the
same key, the retrievable record is exactly the second call's response,
request and metadata (with only `write_time` added — nothing of the first
call's metadata is merged), the key sits at the LRU tail (most recently
used), and the store holds exactly one entry for the key. -/
theorem overwrite_replaces_record [LinearOrderedAddCommGroup T] (cfg : Cfg T)
    (σ0 σ1 σ2 : InMemState T) (key : String) (t1 t2 : T)
    (r1 r2 : Response) (q1 q2 : Request) (m1 m2 : Metadata T)
    (o1 o2 : Option T)
    (hmax : 1 ≤ cfg.maxSize)
    (hT1 : dataTTL (dset m1 "write_time" (MetaVal.num t1)) cfg.ttl =
      Except.ok o1)
    (ho1 : ∀ s, o1 = some s → 0 ≤ s)
    (hstale1 : o1 = none →
      ((dget σ0.storage key).isSome ∨ dget σ0.expiryTimes key = none))
    (h1 : InMemoryStorage.store cfg σ0 t1 key r1 q1 m1 = Except.ok σ1)
    (hT2 : dataTTL (dset m2 "write_time" (MetaVal.num t2)) cfg.ttl =
      Except.ok o2)
    (ho2 : ∀ s, o2 = some s → 0 ≤ s)
    (h2 : InMemoryStorage.store cfg σ1 t2 key r2 q2 m2 = Except.ok σ2) :
    (InMemoryStorage.retrieve σ2 t2 key).1 =
      some (r2, q2, dset m2 "write_time" (MetaVal.num t2)) ∧
    σ2.storage.getLast? =
      some (key, (r2, q2, dset m2 "write_time" (MetaVal.num t2))) ∧
    (dkeys σ2.storage).count key = 1 := by
  obtain ⟨B1, hB1, hB1free, hB1exp⟩ :=
    store_ok_anatomy cfg hmax hT1
      (fun s hs => ho1 s (Option.mem_def.mp hs)) hstale1 h1
  have hget1 : (dget σ1.storage key).isSome := by
    rw [hB1, dget_of_tail_form hB1free]
    rfl
  obtain ⟨B2, hB2, hB2free, hB2exp⟩ :=
    store_ok_anatomy cfg hmax hT2
      (fun s hs => ho2 s (Option.mem_def.mp hs))
      (fun _ => Or.inl hget1) h2
  have hget2 : dget σ2.storage key =
      some (r2, q2, dset m2 "write_time" (MetaVal.num t2)) := by
    rw [hB2]
    exact dget_of_tail_form hB2free
  refine ⟨?_, ?_, ?_⟩
  · have hnotexp : isExpired σ2 t2 key = false := by
      unfold isExpired
      rw [hB2exp]
      cases o2 with
      | none => rfl
      | some s =>
          have : ¬ (t2 > t2 + s) := not_lt.mpr (le_add_of_nonneg_right (ho2 s rfl))
          simpa using this
    rw [retrieve_of_live hget2 hnotexp]
  · rw [hB2]
    exact List.getLast?_concat _
  · rw [hB2]
    unfold dkeys
    rw [List.map_append, List.count_append]
    have hzero : (B2.map (·.1)).count key = 0 := by
      rw [List.count_eq_zero]
      intro hmem
      obtain ⟨e, he, hek⟩ := List.mem_map.mp hmem
      exact hB2free e he hek
    rw [hzero]
    simp [List.count_singleton]

/-- A dict entry found by `dget` is a member of the dict. -/
lemma mem_of_dget_eq_some {α : Type} {d : Dict α} {k : String} {v : α}
    (h : dget d k = some v) : (k, v) ∈ d := by
  unfold dget at h
  cases hf : d.find? (fun kv => kv.1 == k) with
  | none => rw [hf] at h; cases h
  | some e =>
      rw [hf] at h
      have he : e ∈ d := List.mem_of_find?_eq_some hf
      have hk : e.1 = k := by simpa using List.find?_some hf
      have hv : e.2 = v := by simpa using h
      have : e = (k, v) := Prod.ext hk hv
      rw [← this]
      exact he

/-- **C2 (amended)** — Absence semantics of `retrieve`.  On the in-memory
store, `retrieve` returns `None` uniformly for a key never stored, a key
whose TTL has expired (popping it), and a key just removed by a matching
`remove`; a present unexpired key yields its record.  The Redis backend does
NOT share this contract: its `get` raises `TTLExpiredStorageError` when the
key is absent from the backend. -/
theorem retrieve_absence_unified [LinearOrder T] :
    (∀ (σ : InMemState T) (now : T) (k : String),
      dget σ.storage k = none → (InMemoryStorage.retrieve σ now k).1 = none) ∧
    (∀ (σ : InMemState T) (now : T) (k : String),
      (dget σ.storage k).isSome → isExpired σ now k = true →
      (InMemoryStorage.retrieve σ now k).1 = none) ∧
    (∀ (σ : InMemState T) (now : T) (k : String) (rec : StoredResponse T)
      (pm : String → Bool),
      dget σ.storage k = some rec → pm rec.2.1.path = true →
      (InMemoryStorage.retrieve (InMemoryStorage.remove σ pm) now k).1 = none) ∧
    (∀ (σ : InMemState T) (now : T) (k : String) (rec : StoredResponse T),
      dget σ.storage k = some rec → isExpired σ now k = false →
      (InMemoryStorage.retrieve σ now k).1 = some rec) ∧
    (∀ (namespc : String) (σr : RedisState T) (k : String),
      dget σr.data (redisFullKey namespc k) = none →
      RedisStorage.get namespc σr k =
        Except.error (RedisErr.ttlExpired (redisFullKey namespc k))) := by
  refine ⟨?_, ?_, ?_, ?_, ?_⟩
  · intro σ now k h
    rw [retrieve_of_absent h]
  · intro σ now k hp h
    rw [retrieve_of_expired hp h]
  · intro σ now k rec pm hget hpm
    have hmem : (k, rec) ∈ σ.storage := mem_of_dget_eq_some hget
    have hK : k ∈ (σ.storage.filter (fun kv => pm kv.2.2.1.path)).map (·.1) := by
      refine List.mem_map.mpr ⟨(k, rec), ?_, rfl⟩
      exact List.mem_filter.mpr ⟨hmem, hpm⟩
    have habs : dget (InMemoryStorage.remove σ pm).storage k = none := by
      unfold InMemoryStorage.remove
      rw [popItem_foldl_storage]
      exact dget_eraseKeys_mem _ hK
    rw [retrieve_of_absent habs]
  · intro σ now k rec hget h
    rw [retrieve_of_live hget h]
  · intro namespc σr k h
    unfold RedisStorage.get
    rw [if_pos (by rw [h]; rfl)]

/-- Membership in erased keys matches the pointwise filter, under unique
keys. -/
lemma eraseKeys_eq_filter {α : Type} (d : Dict α) (ks : List String) :
    eraseKeys d ks = d.filter (fun kv => !(ks.contains kv.1)) := by
  induction ks generalizing d with
  | nil =>
      rw [eraseKeys_nil]
      conv_rhs => rw [show (fun kv : String × α => !(([] : List String).contains kv.1)) =
        (fun _ => true) by funext kv; rfl]
      rw [List.filter_true]
  | cons k ks ih =>
      rw [eraseKeys_cons, ih]
      unfold derase
      rw [List.filter_filter]
      apply List.filter_congr
      intro kv _
      by_cases h1 : kv.1 = k
      · simp [h1]
      · by_cases h2 : kv.1 ∈ ks <;> simp [h1, h2]

/-- **C8** — Pattern invalidation is exact: `remove(pattern)` deletes exactly
the records whose request path matches the pattern, keeps every other record,
and drops exactly the expiry entries of the removed keys. -/
theorem remove_pattern_exact (σ : InMemState T) (pm : String → Bool)
    (hnodup : (dkeys σ.storage).Nodup) :
    (InMemoryStorage.remove σ pm).storage =
      σ.storage.filter (fun kv => !(pm kv.2.2.1.path)) ∧
    (∀ kk : String,
      dget (InMemoryStorage.remove σ pm).expiryTimes kk =
        if ∃ e ∈ σ.storage, e.1 = kk ∧ pm e.2.2.1.path = true then none
        else dget σ.expiryTimes kk) := by
  unfold InMemoryStorage.remove
  set K := (σ.storage.filter (fun kv => pm kv.2.2.1.path)).map (·.1) with hKdef
  constructor
  · rw [popItem_foldl_storage, eraseKeys_eq_filter]
    apply List.filter_congr
    intro kv hkv
    by_cases hpm : pm kv.2.2.1.path = true
    · have : kv.1 ∈ K := by
        refine List.mem_map.mpr ⟨kv, List.mem_filter.mpr ⟨hkv, hpm⟩, rfl⟩
      simp [this, hpm]
    · have : kv.1 ∉ K := by
        intro hmem
        obtain ⟨e, he, hek⟩ := List.mem_map.mp hmem
        have he2 := List.mem_filter.mp he
        have : e = kv :=
          List.inj_on_of_nodup_map hnodup he2.1 hkv hek
        rw [this] at he2
        exact hpm he2.2
      simp [this, hpm]
  · intro kk
    rw [popItem_foldl_expiry]
    by_cases hex : ∃ e ∈ σ.storage, e.1 = kk ∧ pm e.2.2.1.path = true
    · rw [if_pos hex]
      obtain ⟨e, he, hek, hpm⟩ := hex
      apply dget_eraseKeys_mem
      exact List.mem_map.mpr ⟨e, List.mem_filter.mpr ⟨he, hpm⟩, hek⟩
    · rw [if_neg hex]
      apply dget_eraseKeys_not_mem
      intro hmem
      obtain ⟨e, he, hek⟩ := List.mem_map.mp hmem
      have he2 := List.mem_filter.mp he
      exact hex ⟨e, he2.1, hek, he2.2⟩

lemma derase_length_lt {α : Type} {d : Dict α} {k : String} {v : α}
    (h : dget d k = some v) : (derase d k).length < d.length := by
  induction d with
  | nil => cases h
  | cons e rest ih =>
      by_cases he : e.1 = k
      · rw [derase_cons_of_eq he]
        have := List.length_filter_le (fun kv => kv.1 != k) rest
        calc (derase rest k).length ≤ rest.length := this
          _ < (e :: rest).length := by simp
      · rw [derase_cons_of_ne he]
        rw [dget_cons_of_ne he] at h
        simpa using ih h

lemma popItem_length_le (σ : InMemState T) (k : String) :
    (popItem σ k).storage.length ≤ σ.storage.length :=
  List.length_filter_le _ _

lemma stepOp_size_invariant [LinearOrderedAddCommGroup T] (cfg : Cfg T)
    {σ σ' : InMemState T} {op : CacheOp T}
    (hbatch : 1 ≤ cfg.cleanupBatchSize)
    (hthr : cfg.maxSize + 1 ≤ cfg.cleanupThreshold)
    (hinv : σ.storage.length ≤ cfg.cleanupThreshold)
    (h : stepOp cfg σ op = Except.ok σ') :
    σ'.storage.length ≤ cfg.cleanupThreshold := by
  cases op with
  | store now key resp req m =>
      unfold stepOp InMemoryStorage.store at h
      dsimp only at h
      set m2 := dset m "write_time" (MetaVal.num now) with hm2
      set σB := if (dget σ.storage key).isSome then popItem σ key else σ with hσB
      have hB : σB.storage.length ≤ σ.storage.length := by
        rw [hσB]
        by_cases hs : (dget σ.storage key).isSome
        · rw [if_pos hs]
          exact popItem_length_le σ key
        · rw [if_neg hs]
      have h2 : (dset σB.storage key (resp, req, m2)).length ≤
          cfg.cleanupThreshold + 1 := by
        calc (dset σB.storage key (resp, req, m2)).length
            ≤ σB.storage.length + 1 := dset_length_le _ _ _
          _ ≤ cfg.cleanupThreshold + 1 := by omega
      cases hTT : dataTTL m2 cfg.ttl with
      | error e => rw [hTT] at h; cases h
      | ok o =>
          rw [hTT] at h
          cases o with
          | none =>
              simp only [Except.ok.injEq] at h
              rw [← h]
              apply cleanup_length_le_threshold cfg _ hbatch hthr
              calc (removeExpiredItems cfg _ now).storage.length
                  ≤ _ := removeExpired_length_le cfg _ now
                _ ≤ cfg.cleanupThreshold + 1 := h2
          | some t =>
              simp only [Except.ok.injEq] at h
              rw [← h]
              apply cleanup_length_le_threshold cfg _ hbatch hthr
              calc (removeExpiredItems cfg _ now).storage.length
                  ≤ _ := removeExpired_length_le cfg _ now
                _ ≤ cfg.cleanupThreshold + 1 := h2
  | retrieve now key =>
      unfold stepOp at h
      simp only [Except.ok.injEq] at h
      rw [← h]
      unfold InMemoryStorage.retrieve
      by_cases h1 : (dget σ.storage key).isNone
      · rw [if_pos h1]
        exact hinv
      · rw [if_neg h1]
        by_cases h2 : isExpired σ now key
        · rw [if_pos h2]
          exact le_trans (popItem_length_le σ key) hinv
        · rw [if_neg h2]
          show (moveToEnd σ key).storage.length ≤ _
          unfold moveToEnd
          cases hg : dget σ.storage key with
          | none => exact hinv
          | some v =>
              show (derase σ.storage key ++ [(key, v)]).length ≤ _
              rw [List.length_append, List.length_singleton]
              have := derase_length_lt hg
              omega
  | remove pm =>
      unfold stepOp InMemoryStorage.remove at h
      simp only [Except.ok.injEq] at h
      rw [← h, popItem_foldl_storage]
      exact le_trans (eraseKeys_length_le _ _) hinv

lemma runOps_size_invariant [LinearOrderedAddCommGroup T] (cfg : Cfg T)
    {σ σ' : InMemState T} {ops : List (CacheOp T)}
    (hbatch : 1 ≤ cfg.cleanupBatchSize)
    (hthr : cfg.maxSize + 1 ≤ cfg.cleanupThreshold)
    (hinv : σ.storage.length ≤ cfg.cleanupThreshold)
    (h : runOps cfg σ ops = Except.ok σ') :
    σ'.storage.length ≤ cfg.cleanupThreshold := by
  induction ops generalizing σ with
  | nil =>
      unfold runOps at h
      simp only [Except.ok.injEq] at h
      rw [← h]
      exact hinv
  | cons op ops ih =>
      unfold runOps at h
      cases hs : stepOp cfg σ op with
      | error e => rw [hs] at h; cases h
      | ok σ1 =>
          rw [hs] at h
          exact ih (stepOp_size_invariant cfg hbatch hthr hinv hs) h

lemma init_ok_fields [LinearOrder T] [Zero T] [OfNat T 60] {maxSize : ℤ}
    {ttl : Option T} {cfg : Cfg T} {σ0 : InMemState T}
    (h : InMemoryStorage.init maxSize ttl = Except.ok (cfg, σ0)) :
    0 < maxSize ∧ cfg.maxSize = maxSize.toNat ∧
    cfg.cleanupBatchSize = max 1 (maxSize.toNat / 10) ∧
    cfg.cleanupThreshold = maxSize.toNat + max 1 (maxSize.toNat / 20) ∧
    cfg.ttl = ttl ∧ σ0.storage = [] ∧ σ0.expiryTimes = [] := by
  unfold InMemoryStorage.init at h
  by_cases h1 : (ttl.map (fun t => decide (t ≤ 0))).getD false
  · rw [if_pos h1] at h
    cases h
  · rw [if_neg h1] at h
    by_cases h2 : maxSize ≤ 0
    · rw [if_pos h2] at h
      cases h
    · rw [if_neg h2] at h
      simp only [Except.ok.injEq, Prod.mk.injEq] at h
      obtain ⟨hc, hσ⟩ := h
      rw [← hc, ← hσ]
      refine ⟨by omega, rfl, rfl, rfl, rfl, rfl, rfl⟩

/-- **C5** — Bounded size and exact batched eviction.  First part: from a
freshly constructed store, after any sequence of `store`/`retrieve`/`remove`
calls the size never exceeds `max_size + max(1, max_size // 20)` (the cleanup
threshold).  Second part: whenever a store call finds the size above that
threshold, the LRU cleanup evicts exactly
`min(max(1, max_size // 10), size - max_size)` entries (at least one) from
the LRU head, oldest first, deleting exactly their expiry-index entries. -/
theorem store_size_bounded [LinearOrderedAddCommGroup T] [OfNat T 60] :
    (∀ (maxSize : ℤ) (ttl : Option T) (cfg : Cfg T) (σ0 : InMemState T)
      (ops : List (CacheOp T)) (σ : InMemState T),
      InMemoryStorage.init maxSize ttl = Except.ok (cfg, σ0) →
      runOps cfg σ0 ops = Except.ok σ →
      σ.storage.length ≤ maxSize.toNat + max 1 (maxSize.toNat / 20)) ∧
    (∀ (cfg : Cfg T) (σ : InMemState T),
      1 ≤ cfg.maxSize →
      cfg.cleanupBatchSize = max 1 (cfg.maxSize / 10) →
      cfg.cleanupThreshold = cfg.maxSize + max 1 (cfg.maxSize / 20) →
      cfg.cleanupThreshold < σ.storage.length →
      1 ≤ min cfg.cleanupBatchSize (σ.storage.length - cfg.maxSize) ∧
      (cleanupLruItems cfg σ).storage =
        σ.storage.drop (min cfg.cleanupBatchSize (σ.storage.length - cfg.maxSize)) ∧
      (∀ kk : String,
        dget (cleanupLruItems cfg σ).expiryTimes kk =
          if kk ∈ (σ.storage.take
              (min cfg.cleanupBatchSize (σ.storage.length - cfg.maxSize))).map (·.1)
          then none else dget σ.expiryTimes kk)) := by
  constructor
  · intro maxSize ttl cfg σ0 ops σ hinit hrun
    obtain ⟨hpos, hms, hbatch, hthr, _, hst, _⟩ := init_ok_fields hinit
    have h1 : 1 ≤ cfg.cleanupBatchSize := by
      rw [hbatch]
      omega
    have h2 : cfg.maxSize + 1 ≤ cfg.cleanupThreshold := by
      rw [hms, hthr]
      omega
    have h3 : σ0.storage.length ≤ cfg.cleanupThreshold := by
      rw [hst]
      simp
    have := runOps_size_invariant cfg h1 h2 h3 hrun
    rw [hthr] at this
    exact this
  · intro cfg σ hmax hbatch hthr hlt
    have hn : 1 ≤ min cfg.cleanupBatchSize (σ.storage.length - cfg.maxSize) := by
      rw [hbatch]
      rw [hthr] at hlt
      omega
    refine ⟨hn, ?_, ?_⟩
    · unfold cleanupLruItems
      rw [if_neg (by omega), popFirstN_storage]
    · intro kk
      unfold cleanupLruItems
      rw [if_neg (by omega), popFirstN_expiry]
      by_cases hmem : kk ∈ (σ.storage.take
          (min cfg.cleanupBatchSize (σ.storage.length - cfg.maxSize))).map (·.1)
      · rw [if_pos hmem]
        exact dget_eraseKeys_mem _ hmem
      · rw [if_neg hmem]
        exact dget_eraseKeys_not_mem _ hmem

/-- **C1** — The serializer round trip FAILS on the code: `loads` iterates
`request_data["headers"]` (a dict) directly instead of `.items()`, so each
header NAME is tuple-unpacked into `(k, v)`; any header name whose length is
not 2 (here `host`) raises `ValueError`, and no request header survives a
`dumps` → `loads` cycle.  Evaluated at the exact fixture of
`tests/test_serializers.py`. -/
theorem serializer_round_trip_fails_on_headers :
    JSONSerializer.loads (JSONSerializer.dumps respRoundTrip reqRoundTrip
      metaRoundTrip) =
    Except.error "ValueError: not enough values to unpack" := rfl

/-- **C4 (counterexample)** — The claimed LRU scenario is false on the code:
with `max_size = 2` the cleanup threshold is 3, so inserting A, B, C leaves
all three keys (the claim says {B, C}); after retrieving B and inserting D
the keys are {C, B, D} (the claim says {B, D}). -/
theorem lru_scenario_counterexample :
    (lruRun lruOpsABC).map (fun σ => dkeys σ.storage) =
      Except.ok ["A", "B", "C"] ∧
    (lruRun lruOpsABCD).map (fun σ => dkeys σ.storage) =
      Except.ok ["C", "B", "D"] ∧
    "A" ∉ (["B", "C"] : List String) ∧ "C" ∉ (["B", "D"] : List String) := by
  refine ⟨rfl, rfl, by decide, by decide⟩

/-- **C4 (amended)** — The LRU eviction scenario as the code actually runs it
with `max_size = 2` (threshold 3, batch 1): inserting A, B, C leaves
{A, B, C}; retrieving B and inserting D evicts only the LRU head A, leaving
{C, B, D}; one more insert E evicts C — not the refreshed B — leaving
{B, D, E}.  A retrieve does refresh recency: B outlives C only because it
was read. -/
theorem lru_scenario_amended :
    (lruRun lruOpsABC).map (fun σ => dkeys σ.storage) =
      Except.ok ["A", "B", "C"] ∧
    (lruRun lruOpsABCD).map (fun σ => dkeys σ.storage) =
      Except.ok ["C", "B", "D"] ∧
    (lruRun lruOpsABCDE).map (fun σ => dkeys σ.storage) =
      Except.ok ["B", "D", "E"] :=
  ⟨rfl, rfl, rfl⟩

/-- **C6 (counterexample)** — The allow-list claim is false on the code:
a 302 (temporary redirect — neither a success nor a permanent-redirect code)
response with no `Cache-Control` header and a tiny body is judged cacheable
by `should_cache_response`, but is outside the spec's allow-list. -/
theorem cacheable_allowlist_counterexample :
    Controller.should_cache_response resp302 = true ∧
    specShouldCacheResponse resp302 = false :=
  ⟨rfl, rfl⟩

lemma utf8ByteSize_empty : String.utf8ByteSize "" = 0 := rfl

/-- **C6 (amended)** — The response-cacheability decision, exactly as coded:
a response is cacheable iff its status code is < 400 (not merely
success/permanent-redirect), its lowercased `Cache-Control` value contains
none of the substrings `no-cache`, `no-store`, `private`, and its body is at
most 1 MiB.  In particular `Cache-Control: private` is never cacheable,
regardless of status. -/
theorem cacheable_amended_equiv (response : Response) :
    Controller.should_cache_response response =
      amendedShouldCacheResponse response := by
  unfold Controller.should_cache_response amendedShouldCacheResponse
  by_cases h1 : response.statusCode ≥ 400
  · rw [if_pos h1]
    have hd : decide (response.statusCode < 400) = false := by
      simp only [decide_eq_false_iff_not, not_lt]
      omega
    rw [hd]
    simp
  · rw [if_neg h1]
    have hd : decide (response.statusCode < 400) = true := by
      simp only [decide_eq_true_eq]
      omega
    rw [hd]
    by_cases hdir : (pyContains (pyLower (headerGetD response.headers
        "cache-control")) "no-cache" ||
      pyContains (pyLower (headerGetD response.headers
        "cache-control")) "no-store" ||
      pyContains (pyLower (headerGetD response.headers
        "cache-control")) "private") = true
    · rw [if_pos hdir]
      rcases Bool.or_eq_true_iff.mp hdir with h2 | h2
      · rcases Bool.or_eq_true_iff.mp h2 with h3 | h3 <;> simp [h3]
      · simp [h2]
    · rw [if_neg hdir]
      simp only [Bool.or_eq_true_iff, not_or, Bool.not_eq_true] at hdir
      obtain ⟨⟨hA, hB⟩, hC⟩ := hdir
      simp only [hA, hB, hC, Bool.not_false, Bool.true_and, Bool.and_true]
      by_cases hbody : response.body ≠ "" ∧
          response.body.utf8ByteSize > 1024 * 1024
      · rw [if_pos hbody]
        have hgt := hbody.2
        have hf : decide (response.body.utf8ByteSize ≤ 1024 * 1024) = false := by
          simp only [decide_eq_false_iff_not, not_le]
          omega
        simp [hf]
      · rw [if_neg hbody]
        push_neg at hbody
        by_cases hb : response.body = ""
        · have hz : response.body.utf8ByteSize = 0 := by
            rw [hb]
            rfl
          have hf : decide (response.body.utf8ByteSize ≤ 1024 * 1024) = true := by
            simp only [decide_eq_true_eq, hz]
            omega
          simp [hf]
        · have hle := hbody hb
          have hf : decide (response.body.utf8ByteSize ≤ 1024 * 1024) = true := by
            simp only [decide_eq_true_eq]
            omega
          simp [hf]

lemma dataTTL_error_eq {m : Metadata T} {dflt : Option T} {e : PyErr}
    (h : dataTTL m dflt = Except.error e) : e = PyErr.typeError := by
  unfold dataTTL at h
  cases hg : dget m "ttl" with
  | none => rw [hg] at h; cases h
  | some v =>
      rw [hg] at h
      cases v with
      | num q => cases h
      | str s => exact (Except.error.inj h).symm
      | null => cases h

/-- **C9** — Configuration errors: constructing the in-memory store raises a
`StorageError` exactly when `max_size ≤ 0` or a given TTL is `≤ 0` (the TTL
check of `BaseStorage.__init__` runs first); once constructed, no
`store`/`retrieve`/`remove` call can raise a `StorageError` for any input
(the only per-call exception is the `TypeError` of a non-numeric metadata
TTL). -/
theorem config_error_iff [LinearOrderedAddCommGroup T] [OfNat T 60] :
    (∀ (maxSize : ℤ) (ttl : Option T),
      (InMemoryStorage.init maxSize ttl).isOk = true ↔
        (0 < maxSize ∧ ∀ t ∈ ttl, 0 < t)) ∧
    (∀ (cfg : Cfg T) (σ : InMemState T) (op : CacheOp T) (msg : String),
      stepOp cfg σ op ≠ Except.error (PyErr.storageError msg)) := by
  constructor
  · intro maxSize ttl
    unfold InMemoryStorage.init
    cases ttl with
    | none =>
        simp only [Option.map_none', Option.getD_none, Bool.false_eq_true,
          if_false]
        by_cases h2 : maxSize ≤ 0
        · rw [if_pos h2]
          constructor
          · intro hh
            cases hh
          · rintro ⟨hp, -⟩
            omega
        · rw [if_neg h2]
          constructor
          · intro _
            exact ⟨by omega, by rintro t ⟨⟩⟩
          · intro _
            rfl
    | some t0 =>
        simp only [Option.map_some', Option.getD_some]
        by_cases h1 : t0 ≤ 0
        · rw [if_pos (by simpa using h1)]
          constructor
          · intro hh
            cases hh
          · rintro ⟨-, hp⟩
            exact absurd (hp t0 rfl) (not_lt.mpr h1)
        · rw [if_neg (by simpa using h1)]
          by_cases h2 : maxSize ≤ 0
          · rw [if_pos h2]
            constructor
            · intro hh
              cases hh
            · rintro ⟨hp, -⟩
              omega
          · rw [if_neg h2]
            constructor
            · intro _
              refine ⟨by omega, ?_⟩
              intro t ht
              have : t0 = t := Option.some.inj ht
              rw [← this]
              exact not_le.mp h1
            · intro _
              rfl
  · intro cfg σ op msg
    cases op with
    | store now key resp req m =>
        show InMemoryStorage.store cfg σ now key resp req m ≠ _
        unfold InMemoryStorage.store
        dsimp only
        cases hTT : dataTTL (dset m "write_time" (MetaVal.num now)) cfg.ttl with
        | error e =>
            intro hh
            have : e = PyErr.storageError msg := Except.error.inj hh
            rw [dataTTL_error_eq hTT] at this
            cases this
        | ok o =>
            cases o with
            | none => exact fun hh => Except.noConfusion hh
            | some t => exact fun hh => Except.noConfusion hh
    | retrieve now key => exact fun hh => Except.noConfusion hh
    | remove pm => exact fun hh => Except.noConfusion hh

/-- **C10** — The metadata copy in `store` (storages.py lines 111-112):
because the code copies the caller's dict before adding `write_time`, the
caller's metadata object is unchanged by the call; only the freshly
allocated copy (a different object) carries `write_time`. -/
theorem metadata_copy_frame (h : MetaHeap T) (mid : ℕ) (now : T)
    (hfresh : ∀ c ∈ h.cells, c.1 < h.next)
    (halloc : (MetaHeap.read h mid).isSome) :
    MetaHeap.read (store_metadata_update h mid now).1 mid =
      MetaHeap.read h mid ∧
    (store_metadata_update h mid now).2 ≠ mid ∧
    MetaHeap.read (store_metadata_update h mid now).1
        (store_metadata_update h mid now).2 =
      some (dset ((MetaHeap.read h mid).getD []) "write_time"
        (MetaVal.num now)) := by
  have hmid : mid < h.next := by
    unfold MetaHeap.read at halloc
    cases hf : h.cells.find? (fun c => c.1 == mid) with
    | none => rw [hf] at halloc; cases halloc
    | some c =>
        have hc := List.mem_of_find?_eq_some hf
        have hck : c.1 = mid := by simpa using List.find?_some hf
        rw [← hck]
        exact hfresh c hc
  set v := (MetaHeap.read h mid).getD [] with hv
  set f : ℕ × Metadata T → ℕ × Metadata T := fun c =>
    if c.1 == h.next then (c.1, dset c.2 "write_time" (MetaVal.num now))
    else c with hfdef
  have hcells : (store_metadata_update h mid now).1.cells =
      h.cells ++ [(h.next, dset v "write_time" (MetaVal.num now))] := by
    show ((h.cells ++ [(h.next, v)]).map f) = _
    rw [List.map_append]
    congr 1
    · have hid : ∀ c ∈ h.cells, f c = c := by
        intro c hc
        have : c.1 ≠ h.next := Nat.ne_of_lt (hfresh c hc)
        simp [hfdef, this]
      rw [List.map_congr_left hid]
      exact List.map_id _
    · simp [hfdef]
  refine ⟨?_, Nat.ne_of_gt hmid, ?_⟩
  · show MetaHeap.read _ mid = _
    unfold MetaHeap.read
    rw [hcells, List.find?_append]
    cases hf : h.cells.find? (fun c => c.1 == mid) with
    | none =>
        unfold MetaHeap.read at halloc
        rw [hf] at halloc
        cases halloc
    | some c => rfl
  · show MetaHeap.read _ h.next = _
    unfold MetaHeap.read
    rw [hcells, List.find?_append]
    have hnone : h.cells.find? (fun c => c.1 == h.next) = none := by
      rw [List.find?_eq_none]
      intro c hc
      simpa using Nat.ne_of_lt (hfresh c hc)
    rw [hnone]
    simp

/-- **C2 (counterexample)** — Absence is NOT non-exceptional on every
backend: on a Redis backend holding no keys, `RedisStorage.get("missing")`
raises `TTLExpiredStorageError("cache:missing")` instead of returning a
`None`-like value. -/
theorem redis_get_absence_raises :
    RedisStorage.get (T := ℤ) "cache" ⟨[]⟩ "missing" =
      Except.error (RedisErr.ttlExpired "cache:missing") := rfl

/-- Witness for C2: concrete instances of all five parts over `T = ℤ`. -/
theorem retrieve_absence_unified_witness :
    (InMemoryStorage.retrieve (T := ℤ) emptyState 0 "k").1 = none ∧
    (InMemoryStorage.retrieve expiredState 10 "k").1 = none ∧
    (InMemoryStorage.retrieve
      (InMemoryStorage.remove apiState (pathStartsWith "/api/")) 0 "k").1 =
      none ∧
    (InMemoryStorage.retrieve liveState 10 "k").1 =
      some (genResp, genReq "/a", []) ∧
    RedisStorage.get (T := ℤ) "cache" ⟨[]⟩ "missing" =
      Except.error (RedisErr.ttlExpired "cache:missing") := by
  refine ⟨?_, ?_, ?_, ?_, ?_⟩
  · exact retrieve_absence_unified.1 emptyState 0 "k" rfl
  · exact retrieve_absence_unified.2.1 expiredState 10 "k" rfl rfl
  · exact retrieve_absence_unified.2.2.1 apiState 0 "k"
      (genResp, genReq "/api/u", []) (pathStartsWith "/api/") rfl rfl
  · exact retrieve_absence_unified.2.2.2.1 liveState 10 "k"
      (genResp, genReq "/a", []) rfl rfl
  · exact retrieve_absence_unified.2.2.2.2 "cache" ⟨[]⟩ "missing" rfl

/-- Witness for C3: the spec scenario — `store("k1", ttl=60)` at time 0,
retrieve at 30 hits, retrieve at 61 misses. -/
theorem ttl_expiry_correct_witness :
    (InMemoryStorage.retrieve c3state 30 "k1").1 =
      some (genResp, genReq "/k", dset meta60 "write_time" (MetaVal.num 0)) ∧
    (InMemoryStorage.retrieve c3state 61 "k1").1 = none := by
  have hthm := ttl_expiry_correct cfg1000 emptyState c3state "k1" genResp
    (genReq "/k") meta60 60 (by decide) rfl (by decide) rfl
  exact ⟨hthm.1 30 (by decide), (hthm.2 61 (by decide)).1⟩

/-- Witness for C5: the bound holds on a concrete over-threshold run, and the
cleanup behaviour on a concrete four-record state with `max_size = 2`. -/
theorem store_size_bounded_witness :
    c5state.storage.length ≤ 3 ∧
    1 ≤ min cfg2.cleanupBatchSize (over4state.storage.length - cfg2.maxSize) ∧
    (cleanupLruItems cfg2 over4state).storage =
      over4state.storage.drop
        (min cfg2.cleanupBatchSize (over4state.storage.length - cfg2.maxSize)) ∧
    dget (cleanupLruItems cfg2 over4state).expiryTimes "A" = none ∧
    dget (cleanupLruItems cfg2 over4state).expiryTimes "C" = some 7 := by
  have h1 := store_size_bounded.1 2 none cfg2 emptyState lruOpsABCD c5state
    rfl rfl
  have h2 := store_size_bounded.2 cfg2 over4state (by decide) (by decide)
    (by decide) (by decide)
  exact ⟨h1, h2.1, h2.2.1, (h2.2.2 "A").trans (by decide),
    (h2.2.2 "C").trans (by decide)⟩

/-- Witness for C7: overwriting `k` (metadata `{"old": "x"}` at time 0, then
`{"new": "y"}` at time 5) leaves exactly the second record, at the tail. -/
theorem overwrite_replaces_record_witness :
    (InMemoryStorage.retrieve c7state2 5 "k").1 =
      some ({ statusCode := 201, headers := [], body := "new" },
        genReq "/k2", dset metaNew "write_time" (MetaVal.num 5)) ∧
    c7state2.storage.getLast? =
      some ("k", ({ statusCode := 201, headers := [], body := "new" },
        genReq "/k2", dset metaNew "write_time" (MetaVal.num 5))) ∧
    (dkeys c7state2.storage).count "k" = 1 := by
  exact overwrite_replaces_record cfg1000 emptyState c7state1 c7state2 "k" 0 5
    genResp { statusCode := 201, headers := [], body := "new" }
    (genReq "/k") (genReq "/k2") metaOld metaNew none none
    (by decide) rfl (fun s hs => by cases hs) (fun _ => Or.inr rfl) rfl
    rfl (fun s hs => by cases hs) rfl

/-- Witness for C8: removing `^/api/.*` from the three-record store deletes
exactly `/api/users` and `/api/posts`, leaving `/admin`, and drops the
removed key's expiry entry. -/
theorem remove_pattern_exact_witness :
    (InMemoryStorage.remove c8state (pathStartsWith "/api/")).storage =
      [("a", (genResp, genReq "/admin", []))] ∧
    dget (InMemoryStorage.remove c8state
      (pathStartsWith "/api/")).expiryTimes "u" = none := by
  have h := remove_pattern_exact c8state (pathStartsWith "/api/") (by decide)
  exact ⟨h.1.trans (by rfl), (h.2 "u").trans (by rfl)⟩

/-- Witness for C9: a valid construction succeeds, and a concrete call cannot
raise a `StorageError`. -/
theorem config_error_iff_witness :
    (InMemoryStorage.init (T := ℤ) 1000 (some 60)).isOk = true ∧
    stepOp cfg2 emptyState (CacheOp.retrieve (0 : ℤ) "k") ≠
      Except.error (PyErr.storageError "boom") := by
  constructor
  · refine (config_error_iff.1 1000 (some 60)).mpr ⟨by decide, ?_⟩
    intro t ht
    have h60 := Option.some.inj ht
    omega
  · exact config_error_iff.2 cfg2 emptyState _ "boom"

/-- Witness for C10: on the one-cell heap, the caller's dict `0` is unchanged
and the fresh copy `1` carries `write_time`. -/
theorem metadata_copy_frame_witness :
    MetaHeap.read (store_metadata_update heap1 0 (5 : ℤ)).1 0 =
      some [("a", MetaVal.str "v")] ∧
    (store_metadata_update heap1 0 (5 : ℤ)).2 ≠ 0 ∧
    MetaHeap.read (store_metadata_update heap1 0 (5 : ℤ)).1 1 =
      some [("a", MetaVal.str "v"), ("write_time", MetaVal.num 5)] := by
  have h := metadata_copy_frame heap1 0 (5 : ℤ) (by decide) rfl
  exact ⟨h.1.trans (by decide), h.2.1, h.2.2.trans (by decide)⟩

end ClaimTheorems

end FCM
